import Mathlib

/-!
Shallow embedding of the bittorrent-client core (`src/index.js`: the `Client`
facade and `lib/torrent.js`), together with a model of the Storage Engine
(`lib/storage.js`, which is referenced but not present in the sources; it is
modelled from the specification, §4.1).

Bytes are modelled as `List Nat`; machine events are explicit; every
side-effecting call made by the torrent code (storage-engine calls, wire
calls, event emissions) is recorded as an `Act` in a trace so that
statements about "what the code does" are statements about data.
-/

/-- Protocol constant from `lib/torrent.js`: `BLOCK_LENGTH = 16 * 1024`. -/
def BLOCK_LENGTH : Nat := 16 * 1024

/-- Protocol constant from `lib/torrent.js`: `MAX_BLOCK_LENGTH = 128 * 1024`. -/
def MAX_BLOCK_LENGTH : Nat := 128 * 1024

/-- Protocol constant from `lib/torrent.js`: `MAX_OUTSTANDING_REQUESTS = 5`. -/
def MAX_OUTSTANDING_REQUESTS : Nat := 5

/-- Protocol constant from `lib/torrent.js`: `PIECE_TIMEOUT = 10000` (ms). -/
def PIECE_TIMEOUT : Nat := 10000

/-- A file entry of a parsed torrent descriptor: name, byte length, and
starting offset in the flat content address space. -/
structure TFile where
  name : String
  flen : Nat
  offset : Nat
deriving DecidableEq

/-- The parsed content descriptor, as produced by the external
`parse-torrent` module: fingerprint (info hash), name, total length,
piece length, per-piece integrity hashes, and the file list. -/
structure ParsedTorrent where
  infoHash : String
  name : String
  tlen : Nat
  pieceLength : Nat
  pieceHashes : List (List Nat)
  files : List TFile
deriving DecidableEq

/-- Modelled from the spec: the per-block state machine of the Storage
Engine (`lib/storage.js`, absent from the sources): a block is
`missing`, `requested`, or `written` (§3, Block). -/
inductive BState where
  | missing
  | requested
  | written
deriving DecidableEq

/-- Modelled from the spec: a block of a piece in the Storage Engine
(`lib/storage.js`, absent from the sources): offset within its piece,
length, state, and the stored bytes once written (§3, Block). -/
structure SBlock where
  offset : Nat
  blen : Nat
  state : BState
  data : List Nat
deriving DecidableEq

/-- Modelled from the spec: a piece held by the Storage Engine
(`lib/storage.js`, absent from the sources): expected integrity hash,
expected length, ordered block list (ascending offsets), and the
verified flag (§3, Piece). -/
structure SPiece where
  expectedHash : List Nat
  plen : Nat
  blocks : List SBlock
  verified : Bool
deriving DecidableEq

/-- Modelled from the spec: the Storage Engine state (`lib/storage.js`,
absent from the sources): piece length, total length, the pieces, and
the file list taken from the descriptor (§3, §4.1). -/
structure Storage where
  pieceLength : Nat
  totalLength : Nat
  pieces : List SPiece
  files : List TFile
deriving DecidableEq

/-- Modelled from the spec: `numMissing`, the count of unverified pieces
(§4.1, derived read-only queries). -/
def Storage.numMissing (s : Storage) : Nat :=
  (s.pieces.filter (fun p => !p.verified)).length

/-- Modelled from the spec: `downloaded`, the sum of verified piece
lengths (§4.1, derived read-only queries). -/
def Storage.downloaded (s : Storage) : Nat :=
  ((s.pieces.filter (fun p => p.verified)).map (fun p => p.plen)).sum

/-- Modelled from the spec: the `bitfield` query, one bit per piece, set
iff that piece is verified (§3, Bitfield). -/
def Storage.bitfield (s : Storage) : List Bool :=
  s.pieces.map (fun p => p.verified)

/-- Modelled from the spec: truthiness of the Storage Engine's per-index
`pieces` query, "verified-or-not per index, used to gate which pieces are
even requestable" (§4.1): truthy iff the index is a known piece that is
not yet verified. -/
def Storage.pieceTruthy (s : Storage) (i : Nat) : Bool :=
  match s.pieces[i]? with
  | some p => !p.verified
  | none => false

/-- Modelled from the spec: `selectBlock(pieceIndex, endgame)` (§4.1).
Non-endgame: the first block in ascending offset order whose state is
`missing` (it becomes `requested`); if none, `none`. Endgame: if no
`missing` block remains, may return a `requested`-but-not-`written`
block (ascending offset order) for a duplicate request; never returns a
`written` block. Returns the block and the updated storage. -/
def Storage.selectBlock (s : Storage) (i : Nat) (endgame : Bool) :
    Option SBlock × Storage :=
  match s.pieces[i]? with
  | none => (none, s)
  | some p =>
    if p.verified then (none, s)
    else
      match p.blocks.find? (fun b => b.state == BState.missing) with
      | some b =>
        let p' := { p with blocks := p.blocks.map (fun c =>
          if c.offset == b.offset then { c with state := BState.requested } else c) }
        (some b, { s with pieces := s.pieces.set i p' })
      | none =>
        if endgame then
          match p.blocks.find? (fun b => b.state == BState.requested) with
          | some b => (some b, s)
          | none => (none, s)
        else (none, s)

/-- Modelled from the spec: `deselectBlock(pieceIndex, offset)` (§4.1):
reverts a block from `requested` to `missing`; idempotent if the block
is already `missing` or `written`. -/
def Storage.deselectBlock (s : Storage) (i : Nat) (off : Nat) : Storage :=
  match s.pieces[i]? with
  | none => s
  | some p =>
    let p' := { p with blocks := p.blocks.map (fun b =>
      if b.offset == off && b.state == BState.requested
      then { b with state := BState.missing } else b) }
    { s with pieces := s.pieces.set i p' }

/-- Modelled from the spec: `writeBlock(pieceIndex, offset, bytes)`
(§4.1): stores the bytes at the block and marks it `written`; if this
makes every block of the piece `written`, the concatenation is hashed
and compared with the expected hash — on match the piece is verified, on
mismatch all of the piece's blocks are reset to `missing` and the data
discarded. Writing to an already-verified piece is a no-op. The hash
function is a parameter (it is an external collaborator). -/
def Storage.writeBlock (s : Storage) (hash : List Nat → List Nat)
    (i : Nat) (off : Nat) (buf : List Nat) : Storage :=
  match s.pieces[i]? with
  | none => s
  | some p =>
    if p.verified then s
    else
      let blocks' := p.blocks.map (fun b =>
        if b.offset == off then { b with state := BState.written, data := buf } else b)
      if blocks'.all (fun b => b.state == BState.written) then
        if hash (blocks'.map (fun b => b.data)).flatten == p.expectedHash then
          { s with pieces := s.pieces.set i { p with blocks := blocks', verified := true } }
        else
          { s with pieces := s.pieces.set i { p with blocks := blocks'.map (fun b =>
              { b with state := BState.missing, data := [] }) } }
      else
        { s with pieces := s.pieces.set i { p with blocks := blocks' } }

/-- Modelled from the spec: `readBlock(pieceIndex, offset, length)`
(§4.1): returns stored bytes only if the piece is verified; returns
`none` otherwise (never serve unverified/partial data). -/
def Storage.readBlock (s : Storage) (i : Nat) (off : Nat) (len : Nat) :
    Option (List Nat) :=
  match s.pieces[i]? with
  | none => none
  | some p =>
    if p.verified then
      some ((((p.blocks.map (fun b => b.data)).flatten).drop off).take len)
    else none

/-- Modelled from the spec: construction of the Storage Engine from a
parsed descriptor (`new Storage(parsedTorrent)`): one piece per hash,
the final piece possibly shorter, each piece divided into 16-KiB blocks
with a possibly-shorter final block, all blocks `missing` (§3, §4.1). -/
def Storage.init (pt : ParsedTorrent) : Storage :=
  { pieceLength := pt.pieceLength
    totalLength := pt.tlen
    pieces := (List.range pt.pieceHashes.length).map (fun i =>
      let plen := min pt.pieceLength (pt.tlen - i * pt.pieceLength)
      { expectedHash := pt.pieceHashes.getD i []
        plen := plen
        blocks := (List.range ((plen + BLOCK_LENGTH - 1) / BLOCK_LENGTH)).map (fun j =>
          { offset := j * BLOCK_LENGTH
            blen := min BLOCK_LENGTH (plen - j * BLOCK_LENGTH)
            state := BState.missing
            data := [] })
        verified := false })
    files := pt.files }

/-- Session-level events emitted by the torrent (`self.emit(...)` in
`lib/torrent.js`). -/
inductive TEvent where
  | error
  | metadataReady
deriving DecidableEq

/-- The per-session state of `Torrent` that the metadata bootstrap and
the progress accessors touch (`lib/torrent.js`): declared fingerprint,
name, raw metadata bytes once delivered, parsed descriptor, storage
engine, and file list. -/
structure TorrentState where
  infoHash : String
  name : String
  metadata : Option (List Nat)
  parsedTorrent : Option ParsedTorrent
  storage : Option Storage
  files : List TFile
deriving DecidableEq

/-- Embedding of `Torrent.prototype._onMetadata` (`lib/torrent.js`):
if `self.metadata` is already set, return immediately; otherwise record
the candidate bytes, parse them (the external `parse-torrent` module is
a parameter) — on parse failure emit `error`; on success adopt the
candidate's name and info hash, construct the Storage Engine, append
the descriptor's files, and emit `metadata`. -/
def onMetadata (parse : List Nat → Option ParsedTorrent)
    (st : TorrentState) (md : List Nat) : TorrentState × List TEvent :=
  if st.metadata.isSome then (st, [])
  else
    let st1 := { st with metadata := some md }
    match parse md with
    | none => (st1, [TEvent.error])
    | some pt =>
      ({ st1 with
          parsedTorrent := some pt
          name := pt.name
          infoHash := pt.infoHash
          storage := some (Storage.init pt)
          files := st1.files ++ (Storage.init pt).files },
       [TEvent.metadataReady])

/-- Embedding of the `Torrent.prototype.length` getter
(`lib/torrent.js`): `0` when no parsed descriptor, else the
descriptor's total length. -/
def TorrentState.length (st : TorrentState) : Nat :=
  match st.parsedTorrent with
  | none => 0
  | some pt => pt.tlen

/-- Embedding of the `Torrent.prototype.downloaded` getter
(`lib/torrent.js`): `(self.storage && self.storage.downloaded) || 0`. -/
def TorrentState.downloaded (st : TorrentState) : Nat :=
  match st.storage with
  | none => 0
  | some s => s.downloaded

/-- Embedding of the `Torrent.prototype.progress` getter
(`lib/torrent.js`): `0` when no parsed descriptor, else
`downloaded / parsedTorrent.length` (as a rational). -/
def TorrentState.progress (st : TorrentState) : ℚ :=
  match st.parsedTorrent with
  | none => 0
  | some pt => (st.downloaded : ℚ) / (pt.tlen : ℚ)

/-- One outstanding block request on a wire, as kept in `wire.requests`
by the connection layer: piece index, block offset, block length. -/
structure WReq where
  index : Nat
  offset : Nat
  rlen : Nat
deriving DecidableEq

/-- The per-connection wire state that `_onWireWithMetadata`
(`lib/torrent.js`) reads: the outstanding request list, the peer's
advertised pieces, and whether the peer is choking us. -/
structure Wire where
  requests : List WReq
  peerPieces : List Bool
  peerChoking : Bool
deriving DecidableEq

/-- The state one `_onWireWithMetadata` attachment operates on: the
wire plus the session's Storage Engine. -/
structure SchedState where
  wire : Wire
  storage : Storage
deriving DecidableEq

/-- The observable calls made by the torrent's per-wire code, recorded
as a trace: `selectBlock` calls (with the endgame flag used),
`wire.request` calls, `deselectBlock` calls, `writeBlock` calls,
session error emissions, `wire.destroy`, and replies to incoming
requests. -/
inductive Act where
  | select (index : Nat) (endgame : Bool)
  | request (index : Nat) (offset : Nat) (rlen : Nat)
  | deselect (index : Nat) (offset : Nat)
  | write (index : Nat) (offset : Nat) (buf : List Nat)
  | emitError
  | destroyWire
  | respond (buf : List Nat)
  | respondError
deriving DecidableEq

/-- Embedding of `requestPiece(index)` from `_onWireWithMetadata`
(`lib/torrent.js`): if `wire.requests.length >= MAX_OUTSTANDING_REQUESTS`
do nothing; otherwise compute `endGame = (len === 0 && numMissing < 30)`,
call `storage.selectBlock(index, endGame)`, and when a block comes back
issue `wire.request(index, block.offset, block.length, ...)` (appending
to the outstanding request list). -/
def requestPiece (st : SchedState) (index : Nat) : SchedState × List Act :=
  let len := st.wire.requests.length
  if MAX_OUTSTANDING_REQUESTS ≤ len then (st, [])
  else
    let endGame : Bool := len == 0 && decide (st.storage.numMissing < 30)
    let res := st.storage.selectBlock index endGame
    match res.1 with
    | none => (st, [Act.select index endGame])
    | some b =>
      ({ wire := { st.wire with
            requests := st.wire.requests ++ [{ index := index, offset := b.offset, rlen := b.blen }] }
         storage := res.2 },
       [Act.select index endGame, Act.request index b.offset b.blen])

/-- The loop body sequence of `requestPieces()` (`lib/torrent.js`),
recursing over the piece indices to visit: for each index, if the peer
has the piece and `storage.pieces[index]` is truthy, run
`requestPiece(index)`. -/
def requestPiecesGo (st : SchedState) : List Nat → SchedState × List Act
  | [] => (st, [])
  | i :: rest =>
    if st.wire.peerPieces.getD i false && st.storage.pieceTruthy i then
      let r1 := requestPiece st i
      let r2 := requestPiecesGo r1.1 rest
      (r2.1, r1.2 ++ r2.2)
    else requestPiecesGo st rest

/-- Embedding of `requestPieces()` (`lib/torrent.js`): iterate `index`
from `0` to `wire.peerPieces.length - 1` in ascending order. -/
def requestPieces (st : SchedState) : SchedState × List Act :=
  requestPiecesGo st (List.range st.wire.peerPieces.length)

/-- Embedding of the `wire.on('have', ...)` handler
(`lib/torrent.js`), including the connection layer's prior update of
`wire.peerPieces[index] = true`: if the peer is choking us or
`storage.pieces[index]` is falsy, do nothing; else `requestPiece(index)`. -/
def onHave (st : SchedState) (i : Nat) : SchedState × List Act :=
  let st1 : SchedState :=
    { st with wire := { st.wire with peerPieces := st.wire.peerPieces.set i true } }
  if st1.wire.peerChoking || !(st1.storage.pieceTruthy i) then (st1, [])
  else requestPiece st1 i

/-- Embedding of the `wire.on('unchoke', requestPieces)` handler
(`lib/torrent.js`), including the connection layer's prior clearing of
`peerChoking`. -/
def onUnchoke (st : SchedState) : SchedState × List Act :=
  let st1 : SchedState := { st with wire := { st.wire with peerChoking := false } }
  requestPieces st1

/-- Embedding of the completion callback passed to `wire.request`
(`lib/torrent.js`), fired when the `n`-th outstanding request resolves
(the connection layer removes the matched request first). On error
(`res = none`, covering failure and timeout):
`storage.deselectBlock(index, block.offset)` and nothing else. On
success: `storage.writeBlock(index, block.offset, buffer)` then
`requestPieces()`. -/
def onResponse (hash : List Nat → List Nat) (st : SchedState) (n : Nat)
    (res : Option (List Nat)) : SchedState × List Act :=
  match st.wire.requests[n]? with
  | none => (st, [])
  | some r =>
    let st1 : SchedState :=
      { st with wire := { st.wire with requests := st.wire.requests.eraseIdx n } }
    match res with
    | none =>
      ({ st1 with storage := st1.storage.deselectBlock r.index r.offset },
       [Act.deselect r.index r.offset])
    | some buf =>
      let st2 : SchedState :=
        { st1 with storage := st1.storage.writeBlock hash r.index r.offset buf }
      let r2 := requestPieces st2
      (r2.1, Act.write r.index r.offset buf :: r2.2)

/-- Embedding of the `wire.on('request', ...)` handler
(`lib/torrent.js`): disconnect peers that request more than
`MAX_BLOCK_LENGTH` bytes; otherwise `storage.readBlock` and reply with
the bytes, or with an error when the block is not available. -/
def onWireRequest (st : SchedState) (i : Nat) (off : Nat) (len : Nat) :
    List Act :=
  if MAX_BLOCK_LENGTH < len then [Act.destroyWire]
  else
    match st.storage.readBlock i off len with
    | none => [Act.respondError]
    | some b => [Act.respond b]

/-- The wire-level events that drive the per-connection scheduler:
`have`, `unchoke`, and the resolution of the `n`-th outstanding request
(with `none` for failure/timeout, `some buf` for a delivered block). -/
inductive WEvent where
  | havePiece (i : Nat)
  | unchoke
  | response (n : Nat) (res : Option (List Nat))
deriving DecidableEq

/-- Dispatch one wire event to its handler. -/
def stepEvent (hash : List Nat → List Nat) (st : SchedState) :
    WEvent → SchedState × List Act
  | WEvent.havePiece i => onHave st i
  | WEvent.unchoke => onUnchoke st
  | WEvent.response n res => onResponse hash st n res

/-- Run a sequence of wire events from a state. -/
def runEvents (hash : List Nat → List Nat) (evts : List WEvent)
    (st : SchedState) : SchedState :=
  evts.foldl (fun s e => (stepEvent hash s e).1) st

/-- The piece indices of the `selectBlock` calls in a trace, in order. -/
def selectIndices : List Act → List Nat
  | [] => []
  | Act.select i _ :: rest => i :: selectIndices rest
  | _ :: rest => selectIndices rest

/-- The loop condition of `requestPieces()`: the peer advertises piece
`i` and `storage.pieces[i]` is truthy. -/
def eligible (st : SchedState) (i : Nat) : Bool :=
  st.wire.peerPieces.getD i false && st.storage.pieceTruthy i

/-- The piece indices `requestPieces()` considers, in the order the
loop visits them: the eligible indices among `0 ..
wire.peerPieces.length - 1`, ascending. -/
def eligibleList (st : SchedState) : List Nat :=
  (List.range st.wire.peerPieces.length).filter (fun i => eligible st i)

/-- A small concrete descriptor used to instantiate theorems: two
pieces (32 KiB piece length, 40000 bytes total), one file. -/
def demoPT : ParsedTorrent :=
  { infoHash := "bb", name := "n", tlen := 40000, pieceLength := 32768,
    pieceHashes := [[1], [2]], files := [{ name := "f", flen := 40000, offset := 0 }] }

/-- A session started from a fingerprint alone: declared info hash
`"aa"`, no metadata, no descriptor, no storage. -/
def startState : TorrentState :=
  { infoHash := "aa", name := "t", metadata := none, parsedTorrent := none,
    storage := none, files := [] }

/-- A stand-in for the external `parse-torrent` module that parses every
byte blob into `demoPT` (whose computed fingerprint is `"bb"`). -/
def cexParse : List Nat → Option ParsedTorrent := fun _ => some demoPT

/-- After a first delivery, `self.metadata` is set (to the delivered
bytes), whatever the parse outcome. -/
theorem onMetadata_sets_metadata (parse : List Nat → Option ParsedTorrent)
    (st : TorrentState) (md : List Nat) (h : st.metadata = none) :
    ((onMetadata parse st md).1).metadata = some md := by
  simp only [onMetadata, h, Option.isSome_none, Bool.false_eq_true, if_false]
  cases parse md <;> simp

/-- Claim C10: for a torrent whose descriptor is not yet known (no
parsed metadata, hence no Storage Engine), the progress accessors are
total and return fixed defaults: `length` is `0`, `progress` is `0`,
and `downloaded` is `0`. -/
theorem accessors_default_without_metadata (st : TorrentState)
    (h1 : st.parsedTorrent = none) (h2 : st.storage = none) :
    st.length = 0 ∧ st.progress = 0 ∧ st.downloaded = 0 := by
  refine ⟨?_, ?_, ?_⟩ <;>
    simp [TorrentState.length, TorrentState.progress, TorrentState.downloaded, h1, h2]

/-- Witness for C10 at the concrete fingerprint-only session. -/
theorem accessors_default_without_metadata_witness :
    startState.length = 0 ∧ startState.progress = 0 ∧ startState.downloaded = 0 :=
  accessors_default_without_metadata startState rfl rfl

/-- Claim C6: the descriptor-ready transition happens exactly once —
after a first metadata delivery has been processed, any subsequent
delivery is a no-op: the whole session state (descriptor, storage, file
list, fingerprint) is unchanged and no event is emitted. -/
theorem onMetadata_idempotent (p1 p2 : List Nat → Option ParsedTorrent)
    (st : TorrentState) (md md' : List Nat) (h : st.metadata = none) :
    onMetadata p2 (onMetadata p1 st md).1 md' = ((onMetadata p1 st md).1, []) := by
  have hm := onMetadata_sets_metadata p1 st md h
  set st1 := (onMetadata p1 st md).1
  simp [onMetadata, hm]

/-- Witness for C6: a second delivery to the demo session is a no-op. -/
theorem onMetadata_idempotent_witness :
    onMetadata cexParse (onMetadata cexParse startState [0]).1 [1]
      = ((onMetadata cexParse startState [0]).1, []) :=
  onMetadata_idempotent cexParse cexParse startState [0] [1] rfl

/-- Counterexample to claim C1 as stated: a session declared with
fingerprint `"aa"` receives a candidate whose recomputed fingerprint is
`"bb"`; the code does not discard it — it transitions to
descriptor-ready (storage constructed, `metadata` emitted) and
overwrites the session fingerprint with the candidate's. -/
theorem onMetadata_no_fingerprint_check_cex :
    demoPT.infoHash ≠ startState.infoHash
    ∧ (onMetadata cexParse startState [0]).1.storage.isSome = true
    ∧ (onMetadata cexParse startState [0]).1.infoHash = demoPT.infoHash
    ∧ (onMetadata cexParse startState [0]).2 = [TEvent.metadataReady] := by
  decide

/-- Claim C1 (amended): `_onMetadata` performs no fingerprint
validation — for every first delivery whose bytes parse, the session
transitions to descriptor-ready and adopts the candidate's computed
fingerprint, whether or not it matches the declared one. -/
theorem onMetadata_accepts_any_parsed_candidate
    (parse : List Nat → Option ParsedTorrent) (st : TorrentState)
    (md : List Nat) (pt : ParsedTorrent)
    (h0 : st.metadata = none) (h1 : parse md = some pt) :
    (onMetadata parse st md).1.storage = some (Storage.init pt)
    ∧ (onMetadata parse st md).1.infoHash = pt.infoHash
    ∧ (onMetadata parse st md).2 = [TEvent.metadataReady] := by
  simp [onMetadata, h0, h1]

/-- Witness for the amended C1 at the concrete mismatching candidate. -/
theorem onMetadata_accepts_any_parsed_candidate_witness :
    (onMetadata cexParse startState [0]).1.storage = some (Storage.init demoPT)
    ∧ (onMetadata cexParse startState [0]).1.infoHash = demoPT.infoHash
    ∧ (onMetadata cexParse startState [0]).2 = [TEvent.metadataReady] :=
  onMetadata_accepts_any_parsed_candidate cexParse startState [0] demoPT rfl rfl

/-- Corrupt candidate bytes for the C5 failing input. -/
def corruptBytes : List Nat := [9]

/-- Valid candidate bytes for the C5 failing input. -/
def validBytes : List Nat := [1]

/-- A stand-in for the external `parse-torrent` module that fails on
`corruptBytes` and succeeds on `validBytes`. -/
def c5parse : List Nat → Option ParsedTorrent :=
  fun b => if b == validBytes then some demoPT else none

/-- Claim C5 (code bug evidence): a corrupt first candidate is reported
as a session error, but because `self.metadata` is assigned before
parsing, the corrupt bytes stay recorded and a later valid candidate is
ignored (the early return fires): the bootstrap never reaches
descriptor-ready. -/
theorem onMetadata_parse_failure_blocks_bootstrap :
    (onMetadata c5parse startState corruptBytes).2 = [TEvent.error]
    ∧ (onMetadata c5parse startState corruptBytes).1.storage = none
    ∧ c5parse validBytes = some demoPT
    ∧ onMetadata c5parse (onMetadata c5parse startState corruptBytes).1 validBytes
        = ((onMetadata c5parse startState corruptBytes).1, [])
    ∧ (onMetadata c5parse (onMetadata c5parse startState corruptBytes).1 validBytes).1.storage
        = none := by
  refine ⟨by decide, by decide, by decide, ?_, by decide⟩
  exact onMetadata_idempotent c5parse c5parse startState corruptBytes validBytes rfl

/-- A per-connection scheduler state over the demo descriptor: empty
request list, the peer advertises both pieces, not choking. -/
def demoSched : SchedState :=
  { wire := { requests := [], peerPieces := [true, true], peerChoking := false },
    storage := Storage.init demoPT }

/-- Claim C2: whenever `requestPiece` performs a block selection, the
endgame flag it passes to `selectBlock` is `true` exactly when the
connection has zero outstanding requests and fewer than 30 pieces are
missing. -/
theorem requestPiece_endgame_iff (st : SchedState) (index : Nat) (eg : Bool)
    (h : Act.select index eg ∈ (requestPiece st index).2) :
    (eg = true ↔ st.wire.requests.length = 0 ∧ st.storage.numMissing < 30) := by
  unfold requestPiece at h
  by_cases h5 : MAX_OUTSTANDING_REQUESTS ≤ st.wire.requests.length
  · simp [h5] at h
  · simp only [h5, if_false] at h
    rcases hsel : (st.storage.selectBlock index
        ((st.wire.requests.length == 0) && decide (st.storage.numMissing < 30))).1 with _ | b <;>
      simp only [hsel, List.mem_singleton, List.mem_cons, List.not_mem_nil, or_false] at h
    · cases h
      simp [Bool.and_eq_true, beq_iff_eq, decide_eq_true_eq]
    · rcases h with h | h
      · cases h
        simp [Bool.and_eq_true, beq_iff_eq, decide_eq_true_eq]
      · cases h

/-- Witness for C2: on the fresh demo connection (zero outstanding,
two missing pieces) the selection is an endgame selection. -/
theorem requestPiece_endgame_iff_witness :
    (true = true ↔ demoSched.wire.requests.length = 0 ∧ demoSched.storage.numMissing < 30) :=
  requestPiece_endgame_iff demoSched 0 true (by decide)

/-- Claim C4: an incoming request longer than 128 KiB disconnects the
peer and sends no data; one of at most 128 KiB is served through
`readBlock` — bytes when it returns them, an error reply (and no
disconnect) when it returns none. `readBlock` itself only returns bytes
for a verified piece. -/
theorem onWireRequest_cases (st : SchedState) (i off len : Nat) :
    (MAX_BLOCK_LENGTH < len → onWireRequest st i off len = [Act.destroyWire])
    ∧ (len ≤ MAX_BLOCK_LENGTH → st.storage.readBlock i off len = none →
        onWireRequest st i off len = [Act.respondError])
    ∧ (∀ b, len ≤ MAX_BLOCK_LENGTH → st.storage.readBlock i off len = some b →
        onWireRequest st i off len = [Act.respond b])
    ∧ (∀ b, st.storage.readBlock i off len = some b →
        ∃ p, st.storage.pieces[i]? = some p ∧ p.verified = true) := by
  refine ⟨?_, ?_, ?_, ?_⟩
  · intro hlt
    simp [onWireRequest, hlt]
  · intro hle hnone
    simp [onWireRequest, Nat.not_lt.mpr hle, hnone]
  · intro b hle hsome
    simp [onWireRequest, Nat.not_lt.mpr hle, hsome]
  · intro b hsome
    unfold Storage.readBlock at hsome
    rcases hp : st.storage.pieces[i]? with _ | p
    · rw [hp] at hsome; cases hsome
    · rw [hp] at hsome
      by_cases hv : p.verified
      · exact ⟨p, rfl, hv⟩
      · simp [hv] at hsome

/-- Witness for C4: a 200000-byte request on the demo connection is
answered by disconnecting the wire. -/
theorem onWireRequest_cases_witness :
    onWireRequest demoSched 0 0 200000 = [Act.destroyWire] :=
  (onWireRequest_cases demoSched 0 0 200000).1 (by decide)

/-- Modelled from the spec: the state of the block at
`(pieceIndex, offset)` in the Storage Engine, when such a block exists. -/
def Storage.blockState (s : Storage) (i : Nat) (off : Nat) : Option BState :=
  match s.pieces[i]? with
  | none => none
  | some p => (p.blocks.find? (fun b => b.offset == off)).map (fun b => b.state)

/-- `find?` by offset commutes with mapping an offset-preserving
function over the blocks. -/
theorem find?_map_offset (f : SBlock → SBlock) (off : Nat)
    (hf : ∀ b, (f b).offset = b.offset) (l : List SBlock) :
    (l.map f).find? (fun c => c.offset == off)
      = (l.find? (fun b => b.offset == off)).map f := by
  induction l with
  | nil => simp
  | cons b t ih =>
    simp only [List.map_cons, List.find?_cons, hf]
    cases hb : (b.offset == off) <;> simp [hb, ih]

/-- `deselectBlock` reverts a `requested` block to `missing`. -/
theorem deselectBlock_blockState (s : Storage) (i off : Nat)
    (h : s.blockState i off = some BState.requested) :
    (s.deselectBlock i off).blockState i off = some BState.missing := by
  rcases hp : s.pieces[i]? with _ | p
  · simp [Storage.blockState, hp] at h
  · simp only [Storage.blockState, hp] at h
    rcases hf : p.blocks.find? (fun b => b.offset == off) with _ | b
    · rw [hf] at h; cases h
    · rw [hf] at h
      have hbs : b.state = BState.requested := by simpa using h
      have hboff : (b.offset == off) = true := by
        have hq := List.find?_some hf
        simpa using hq
      have hpres : ∀ c : SBlock,
          ((fun b : SBlock =>
              if b.offset == off && b.state == BState.requested
              then { b with state := BState.missing } else b) c).offset = c.offset := by
        intro c
        by_cases hc : (c.offset == off && c.state == BState.requested) = true <;> simp [hc]
      simp only [Storage.deselectBlock, hp, Storage.blockState,
        List.getElem?_set_self', hp, Option.map_some, Function.const_apply]
      rw [find?_map_offset _ off hpres p.blocks, hf]
      have hoff' : b.offset = off := by simpa using hboff
      simp [hoff', hbs]

/-- A demo connection with one outstanding request for block
`(piece 0, offset 0, 16 KiB)`. -/
def demoSchedR : SchedState :=
  { wire := { requests := [{ index := 0, offset := 0, rlen := 16384 }],
              peerPieces := [true, true], peerChoking := false },
    storage := Storage.init demoPT }

/-- A stand-in for the external hash collaborator. -/
def hash0 : List Nat → List Nat := fun _ => []

/-- Claim C7: when an outstanding request fails or times out, the
callback deselects exactly that block (piece index and offset) via the
Storage Engine — the failing block reverts from `requested` to
`missing` — and does nothing else: no session error, no write, and no
immediate re-request on this connection. -/
theorem onResponse_failure_deselects_only (hash : List Nat → List Nat)
    (st : SchedState) (n : Nat) (r : WReq)
    (h : st.wire.requests[n]? = some r) :
    (onResponse hash st n none).2 = [Act.deselect r.index r.offset]
    ∧ (onResponse hash st n none).1.storage = st.storage.deselectBlock r.index r.offset
    ∧ (onResponse hash st n none).1.wire.requests = st.wire.requests.eraseIdx n
    ∧ (st.storage.blockState r.index r.offset = some BState.requested →
        (onResponse hash st n none).1.storage.blockState r.index r.offset
          = some BState.missing)
    ∧ Act.emitError ∉ (onResponse hash st n none).2
    ∧ (∀ i o l, Act.request i o l ∉ (onResponse hash st n none).2)
    ∧ (∀ i o b, Act.write i o b ∉ (onResponse hash st n none).2) := by
  have e : onResponse hash st n none
      = ({ wire := { st.wire with requests := st.wire.requests.eraseIdx n },
           storage := st.storage.deselectBlock r.index r.offset },
         [Act.deselect r.index r.offset]) := by
    simp only [onResponse, h]
  rw [e]
  refine ⟨rfl, rfl, rfl, ?_, by simp, by intro i o l; simp, by intro i o b; simp⟩
  intro hreq
  exact deselectBlock_blockState st.storage r.index r.offset hreq

/-- Witness for C7: failing the demo connection's outstanding request
produces exactly the deselect call for its block. -/
theorem onResponse_failure_deselects_only_witness :
    (onResponse hash0 demoSchedR 0 none).2 = [Act.deselect 0 0] :=
  (onResponse_failure_deselects_only hash0 demoSchedR 0
    { index := 0, offset := 0, rlen := 16384 } rfl).1

/-- Claim C8: when an outstanding request succeeds, the callback writes
the received bytes to the Storage Engine at the requested piece index
and block offset, and then immediately re-invokes the fill routine
(`requestPieces`) for this connection. -/
theorem onResponse_success_writes_then_fills (hash : List Nat → List Nat)
    (st : SchedState) (n : Nat) (r : WReq) (buf : List Nat)
    (h : st.wire.requests[n]? = some r) :
    onResponse hash st n (some buf)
      = ((requestPieces
            { wire := { st.wire with requests := st.wire.requests.eraseIdx n }
              storage := st.storage.writeBlock hash r.index r.offset buf }).1,
         Act.write r.index r.offset buf
           :: (requestPieces
            { wire := { st.wire with requests := st.wire.requests.eraseIdx n }
              storage := st.storage.writeBlock hash r.index r.offset buf }).2) := by
  simp only [onResponse, h]

/-- Witness for C8 at the demo connection. -/
theorem onResponse_success_writes_then_fills_witness :
    onResponse hash0 demoSchedR 0 (some [5])
      = ((requestPieces
            { wire := { demoSchedR.wire with requests := demoSchedR.wire.requests.eraseIdx 0 }
              storage := demoSchedR.storage.writeBlock hash0 0 0 [5] }).1,
         Act.write 0 0 [5]
           :: (requestPieces
            { wire := { demoSchedR.wire with requests := demoSchedR.wire.requests.eraseIdx 0 }
              storage := demoSchedR.storage.writeBlock hash0 0 0 [5] }).2) :=
  onResponse_success_writes_then_fills hash0 demoSchedR 0
    { index := 0, offset := 0, rlen := 16384 } [5] rfl

/-- With the outstanding-request ceiling reached, `requestPiece` does
nothing at all. -/
theorem requestPiece_of_full (st : SchedState) (i : Nat)
    (h : MAX_OUTSTANDING_REQUESTS ≤ st.wire.requests.length) :
    requestPiece st i = (st, []) := by
  simp [requestPiece, h]

/-- `requestPiece` preserves the outstanding-request ceiling. -/
theorem requestPiece_len_le (st : SchedState) (i : Nat)
    (h : st.wire.requests.length ≤ MAX_OUTSTANDING_REQUESTS) :
    (requestPiece st i).1.wire.requests.length ≤ MAX_OUTSTANDING_REQUESTS := by
  by_cases h5 : MAX_OUTSTANDING_REQUESTS ≤ st.wire.requests.length
  · rw [requestPiece_of_full st i h5]; exact h
  · have h4 : st.wire.requests.length < MAX_OUTSTANDING_REQUESTS := Nat.lt_of_not_le h5
    unfold requestPiece
    simp only [h5, if_false]
    rcases hsel : (st.storage.selectBlock i
        ((st.wire.requests.length == 0) && decide (st.storage.numMissing < 30))).1 with _ | b <;>
      simp only [hsel]
    · exact h
    · simp only [List.length_append, List.length_singleton]
      omega

/-- The fill loop preserves the outstanding-request ceiling. -/
theorem requestPiecesGo_len_le (idxs : List Nat) : ∀ st : SchedState,
    st.wire.requests.length ≤ MAX_OUTSTANDING_REQUESTS →
    (requestPiecesGo st idxs).1.wire.requests.length ≤ MAX_OUTSTANDING_REQUESTS := by
  induction idxs with
  | nil => intro st h; simpa [requestPiecesGo] using h
  | cons i rest ih =>
    intro st h
    unfold requestPiecesGo
    by_cases hc : (st.wire.peerPieces.getD i false && st.storage.pieceTruthy i) = true
    · simp only [hc, if_true]
      exact ih _ (requestPiece_len_le st i h)
    · simp only [hc, if_false]
      exact ih st h

/-- `requestPieces` preserves the outstanding-request ceiling. -/
theorem requestPieces_len_le (st : SchedState)
    (h : st.wire.requests.length ≤ MAX_OUTSTANDING_REQUESTS) :
    (requestPieces st).1.wire.requests.length ≤ MAX_OUTSTANDING_REQUESTS :=
  requestPiecesGo_len_le _ st h

/-- Each wire event handler preserves the outstanding-request ceiling. -/
theorem stepEvent_len_le (hash : List Nat → List Nat) (st : SchedState)
    (e : WEvent) (h : st.wire.requests.length ≤ MAX_OUTSTANDING_REQUESTS) :
    (stepEvent hash st e).1.wire.requests.length ≤ MAX_OUTSTANDING_REQUESTS := by
  cases e with
  | havePiece i =>
    unfold stepEvent onHave
    by_cases hc : (({ st with wire := { st.wire with
        peerPieces := st.wire.peerPieces.set i true } } : SchedState).wire.peerChoking
          || !(Storage.pieceTruthy ({ st with wire := { st.wire with
        peerPieces := st.wire.peerPieces.set i true } } : SchedState).storage i)) = true
    · simp only [hc, if_true]
      exact h
    · simp only [hc, if_false]
      exact requestPiece_len_le _ i h
  | unchoke =>
    unfold stepEvent onUnchoke
    exact requestPieces_len_le _ h
  | response n res =>
    unfold stepEvent onResponse
    rcases hr : st.wire.requests[n]? with _ | r
    · simp only [hr]
      exact h
    · have herase : (st.wire.requests.eraseIdx n).length ≤ MAX_OUTSTANDING_REQUESTS := by
        rw [List.length_eraseIdx]
        split <;> omega
      simp only [hr]
      cases res with
      | none => exact herase
      | some buf => exact requestPieces_len_le _ herase

/-- Claim C3: over every reachable sequence of have/unchoke/response
events, a connection never has more than 5 outstanding block requests —
and the fill routine issues no new request while 5 or more are
outstanding (it returns without touching the state). -/
theorem outstanding_requests_le_five :
    (∀ (hash : List Nat → List Nat) (evts : List WEvent) (st : SchedState),
        st.wire.requests.length ≤ MAX_OUTSTANDING_REQUESTS →
        (runEvents hash evts st).wire.requests.length ≤ MAX_OUTSTANDING_REQUESTS)
    ∧ (∀ (st : SchedState) (i : Nat),
        MAX_OUTSTANDING_REQUESTS ≤ st.wire.requests.length →
        requestPiece st i = (st, [])) := by
  constructor
  · intro hash evts
    induction evts with
    | nil => intro st h; simpa [runEvents] using h
    | cons e rest ih =>
      intro st h
      have h1 := stepEvent_len_le hash st e h
      simpa [runEvents] using ih _ h1
  · exact requestPiece_of_full

/-- Witness for C3: running a concrete event sequence (unchoke, have,
a successful response) on the fresh demo connection stays at or below
the ceiling. -/
theorem outstanding_requests_le_five_witness :
    (runEvents hash0 [WEvent.unchoke, WEvent.havePiece 1, WEvent.response 0 (some [7])]
        demoSched).wire.requests.length ≤ MAX_OUTSTANDING_REQUESTS :=
  outstanding_requests_le_five.1 hash0
    [WEvent.unchoke, WEvent.havePiece 1, WEvent.response 0 (some [7])] demoSched (by decide)

/-- With the outstanding-request ceiling reached, the whole fill loop
does nothing at all. -/
theorem requestPiecesGo_of_full (idxs : List Nat) : ∀ st : SchedState,
    MAX_OUTSTANDING_REQUESTS ≤ st.wire.requests.length →
    requestPiecesGo st idxs = (st, []) := by
  induction idxs with
  | nil => intro st h; rfl
  | cons i rest ih =>
    intro st h
    unfold requestPiecesGo
    by_cases hc : (st.wire.peerPieces.getD i false && st.storage.pieceTruthy i) = true
    · simp only [hc, if_true, requestPiece_of_full st i h, ih st h]
      rfl
    · simp only [hc, if_false]
      exact ih st h

/-- `selectBlock` never changes which pieces are verified, so the
per-index `pieces` gate is unchanged. -/
theorem selectBlock_pieceTruthy (s : Storage) (i : Nat) (eg : Bool) (j : Nat) :
    ((s.selectBlock i eg).2).pieceTruthy j = s.pieceTruthy j := by
  unfold Storage.selectBlock
  rcases hp : s.pieces[i]? with _ | p
  · simp [hp]
  · simp only [hp]
    by_cases hv : p.verified = true
    · simp [hv]
    · simp only [hv, Bool.false_eq_true, if_false]
      rcases hm : p.blocks.find? (fun b => b.state == BState.missing) with _ | b
      · simp only [hm]
        by_cases heg : eg = true
        · rcases hr : p.blocks.find? (fun b => b.state == BState.requested) with _ | c <;>
            simp [heg, hr]
        · simp [heg]
      · simp only [hm]
        unfold Storage.pieceTruthy
        by_cases hij : i = j
        · subst hij
          rw [List.getElem?_set_self', hp]
          simp
          exact Bool.eq_false_iff.mpr hv
        · rw [List.getElem?_set_ne hij]

/-- `requestPiece` never changes the peer's advertised pieces. -/
theorem requestPiece_peerPieces (st : SchedState) (i : Nat) :
    (requestPiece st i).1.wire.peerPieces = st.wire.peerPieces := by
  unfold requestPiece
  by_cases h5 : MAX_OUTSTANDING_REQUESTS ≤ st.wire.requests.length
  · simp [h5]
  · simp only [h5, if_false]
    rcases hsel : (st.storage.selectBlock i
        ((st.wire.requests.length == 0) && decide (st.storage.numMissing < 30))).1 with _ | b <;>
      simp [hsel]

/-- `requestPiece` never changes the per-index `pieces` gate. -/
theorem requestPiece_pieceTruthy (st : SchedState) (i j : Nat) :
    (requestPiece st i).1.storage.pieceTruthy j = st.storage.pieceTruthy j := by
  unfold requestPiece
  by_cases h5 : MAX_OUTSTANDING_REQUESTS ≤ st.wire.requests.length
  · simp [h5]
  · simp only [h5, if_false]
    rcases hsel : (st.storage.selectBlock i
        ((st.wire.requests.length == 0) && decide (st.storage.numMissing < 30))).1 with _ | b <;>
      simp only [hsel]
    exact selectBlock_pieceTruthy st.storage i _ j

/-- `requestPiece` never changes which pieces are eligible for the fill
loop. -/
theorem requestPiece_eligible (st : SchedState) (i j : Nat) :
    eligible (requestPiece st i).1 j = eligible st j := by
  unfold eligible
  rw [requestPiece_peerPieces, requestPiece_pieceTruthy]

/-- Below the ceiling, `requestPiece i` records a `selectBlock` call for
piece `i` at the head of its trace. -/
theorem selectIndices_requestPiece (st : SchedState) (i : Nat) (a : List Act)
    (h : st.wire.requests.length < MAX_OUTSTANDING_REQUESTS) :
    selectIndices ((requestPiece st i).2 ++ a) = i :: selectIndices a := by
  unfold requestPiece
  simp only [Nat.not_le.mpr h, if_false]
  rcases hsel : (st.storage.selectBlock i
      ((st.wire.requests.length == 0) && decide (st.storage.numMissing < 30))).1 with _ | b <;>
    simp [hsel, selectIndices]

/-- The `selectBlock` calls of one fill loop visit a prefix of the
eligible indices, and the first eligible index is visited whenever there
is capacity. -/
theorem requestPiecesGo_selectIndices (idxs : List Nat) : ∀ st : SchedState,
    ∃ k, selectIndices (requestPiecesGo st idxs).2
        = (idxs.filter (fun i => eligible st i)).take k
      ∧ (st.wire.requests.length < MAX_OUTSTANDING_REQUESTS →
          idxs.filter (fun i => eligible st i) ≠ [] → 1 ≤ k) := by
  induction idxs with
  | nil =>
    intro st
    exact ⟨0, by simp [requestPiecesGo, selectIndices], by simp⟩
  | cons i rest ih =>
    intro st
    unfold requestPiecesGo
    by_cases hel : (st.wire.peerPieces.getD i false && st.storage.pieceTruthy i) = true
    · have hel' : eligible st i = true := hel
      by_cases h5 : st.wire.requests.length < MAX_OUTSTANDING_REQUESTS
      · obtain ⟨k, hk, _⟩ := ih (requestPiece st i).1
        have hfilt : rest.filter (fun j => eligible (requestPiece st i).1 j)
            = rest.filter (fun j => eligible st j) := by
          apply List.filter_congr
          intro j _
          rw [requestPiece_eligible]
        refine ⟨k + 1, ?_, by intro _ _; omega⟩
        simp only [hel, if_true]
        rw [selectIndices_requestPiece st i _ h5, hk, hfilt,
          List.filter_cons_of_pos hel', List.take_succ_cons]
      · have hfull := requestPiecesGo_of_full (i :: rest) st (Nat.le_of_not_lt h5)
        unfold requestPiecesGo at hfull
        refine ⟨0, ?_, by intro hlt _; exact absurd hlt h5⟩
        rw [hfull]
        simp [selectIndices]
    · obtain ⟨k, hk, hk1⟩ := ih st
      have hel' : eligible st i = false := by
        simpa [eligible] using hel
      refine ⟨k, ?_, ?_⟩
      · rw [if_neg hel]
        rw [hk, List.filter_cons_of_neg (by simp [hel'])]
      · intro hlt hne
        apply hk1 hlt
        rwa [List.filter_cons_of_neg (by simp [hel'])] at hne

/-- `head?` of a nonempty `take` agrees with `head?`. -/
theorem head?_take_of_pos (l : List Nat) (k : Nat) (h : 1 ≤ k) :
    (l.take k).head? = l.head? := by
  cases l <;> cases k <;> simp_all

/-- Claim C9: each fill cycle considers candidate pieces in strictly
ascending piece-index order over exactly the pieces the peer advertises
and the session's storage still gates as requestable (its `selectBlock`
call trace is a prefix of the ascending eligible-index list), so —
deterministically, with no randomization — the lowest-indexed available
piece is always the first one requested whenever the connection has
capacity. -/
theorem requestPieces_ascending_order (st : SchedState) :
    (∃ k, selectIndices (requestPieces st).2 = (eligibleList st).take k)
    ∧ List.Pairwise (· < ·) (selectIndices (requestPieces st).2)
    ∧ (st.wire.requests.length < MAX_OUTSTANDING_REQUESTS → eligibleList st ≠ [] →
        (selectIndices (requestPieces st).2).head? = (eligibleList st).head?) := by
  obtain ⟨k, hk, hk1⟩ :=
    requestPiecesGo_selectIndices (List.range st.wire.peerPieces.length) st
  have helist : eligibleList st
      = (List.range st.wire.peerPieces.length).filter (fun i => eligible st i) := rfl
  have hmain : selectIndices (requestPieces st).2 = (eligibleList st).take k := by
    rw [requestPieces, hk, helist]
  refine ⟨⟨k, hmain⟩, ?_, ?_⟩
  · rw [hmain]
    exact List.Pairwise.sublist
      ((List.take_sublist _ _).trans (List.filter_sublist _))
      (List.pairwise_lt_range _)
  · intro h5 hne
    have hk' : 1 ≤ k := hk1 h5 (by rwa [helist] at hne)
    rw [hmain]
    exact head?_take_of_pos _ k hk'

/-- Witness for C9: on the fresh demo connection the first selection is
for the lowest eligible piece index. -/
theorem requestPieces_ascending_order_witness :
    (selectIndices (requestPieces demoSched).2).head? = (eligibleList demoSched).head? :=
  (requestPieces_ascending_order demoSched).2.2 (by decide) (by decide)
